import Mathlib

/-!
Verification of the Buying-Lower-Smarter backtest engine specification.

The repository ships a React frontend under `src/frontend`; the scoring and
backtest engine itself (loser detection, confidence scoring, forward returns,
aggregation, run orchestration, model registry) lives in a Python backend that
is not part of the source tree here, so those components are modelled from the
specification.  Frontend logic (default weights, the model-save guard, the
hold-period toggles, the results-table sort comparator) is translated directly
from the JSX/JS sources.
-/

namespace BLS

/-! ### Generic list machinery: JS-style string order and sorting lemmas -/

/-- Lexicographic `≤` on character lists by code point, the order JS uses when
comparing strings with `<` / `>` (UTF-16 code units; all strings in this
development are ASCII, where code units and code points agree). -/
def charListLe : List Char → List Char → Bool
  | [], _ => true
  | _ :: _, [] => false
  | x :: xs, y :: ys =>
    if x.toNat < y.toNat then true
    else if y.toNat < x.toNat then false
    else charListLe xs ys

/-- JS string comparison `a <= b`, modelled on the underlying character data. -/
def jsStrLe (a b : String) : Bool := charListLe a.data b.data

theorem charListLe_total : ∀ a b : List Char, charListLe a b = true ∨ charListLe b a = true := by
  intro a
  induction a with
  | nil => intro b; left; rfl
  | cons x xs ih =>
    intro b
    cases b with
    | nil => right; rfl
    | cons y ys =>
      by_cases hxy : x.toNat < y.toNat
      · left; simp [charListLe, hxy]
      · by_cases hyx : y.toNat < x.toNat
        · right; simp [charListLe, hyx]
        · rcases ih ys with h | h
          · left; simp [charListLe, hxy, hyx, h]
          · right; simp [charListLe, hxy, hyx, h]

theorem charListLe_trans : ∀ a b c : List Char,
    charListLe a b = true → charListLe b c = true → charListLe a c = true := by
  intro a
  induction a with
  | nil => intro b c _ _; rfl
  | cons x xs ih =>
    intro b c hab hbc
    cases b with
    | nil => simp [charListLe] at hab
    | cons y ys =>
      cases c with
      | nil => simp [charListLe] at hbc
      | cons z zs =>
        simp only [charListLe] at hab hbc ⊢
        by_cases hxy : x.toNat < y.toNat
        · by_cases hyz : y.toNat < z.toNat
          · have hxz : x.toNat < z.toNat := Nat.lt_trans hxy hyz
            simp [hxz]
          · by_cases hzy : z.toNat < y.toNat
            · simp [hyz, hzy] at hbc
            · have hyz' : y.toNat = z.toNat := Nat.le_antisymm (Nat.le_of_not_lt hzy) (Nat.le_of_not_lt hyz)
              have hxz : x.toNat < z.toNat := hyz' ▸ hxy
              simp [hxz]
        · by_cases hyx : y.toNat < x.toNat
          · simp [hxy, hyx] at hab
          · have hxy' : x.toNat = y.toNat := Nat.le_antisymm (Nat.le_of_not_lt hyx) (Nat.le_of_not_lt hxy)
            by_cases hyz : y.toNat < z.toNat
            · have hxz : x.toNat < z.toNat := hxy' ▸ hyz
              simp [hxz]
            · by_cases hzy : z.toNat < y.toNat
              · simp [hyz, hzy] at hbc
              · have hyz' : y.toNat = z.toNat := Nat.le_antisymm (Nat.le_of_not_lt hzy) (Nat.le_of_not_lt hyz)
                have hxz : ¬ x.toNat < z.toNat := by omega
                have hzx : ¬ z.toNat < x.toNat := by omega
                rw [if_neg hxy, if_neg hyx] at hab
                rw [if_neg hyz, if_neg hzy] at hbc
                simp [hxz, hzx, ih ys zs hab hbc]

/-- Inserting into a list preserves a pairwise relation `R`, provided the sort
predicate `r` implies `R` forwards and its negation implies `R` backwards, and
`R` is transitive.  This is the key step for every sortedness claim below. -/
theorem pairwise_orderedInsert_of {α : Type} (r : α → α → Prop) [DecidableRel r]
    (R : α → α → Prop)
    (h1 : ∀ a b, r a b → R a b) (h2 : ∀ a b, ¬ r a b → R b a)
    (ht : ∀ a b c, R a b → R b c → R a c)
    (x : α) : ∀ l : List α, l.Pairwise R → (List.orderedInsert r x l).Pairwise R := by
  intro l
  induction l with
  | nil => intro _; simp
  | cons b t ih =>
    intro hl
    rw [List.pairwise_cons] at hl
    by_cases hrb : r x b
    · rw [List.orderedInsert, if_pos hrb]
      refine List.Pairwise.cons ?_ (List.Pairwise.cons hl.1 hl.2)
      intro y hy
      rcases List.mem_cons.mp hy with rfl | hyt
      · exact h1 _ _ hrb
      · exact ht _ _ _ (h1 _ _ hrb) (hl.1 y hyt)
    · rw [List.orderedInsert, if_neg hrb]
      refine List.Pairwise.cons ?_ (ih hl.2)
      intro y hy
      rcases (List.mem_orderedInsert r).mp hy with rfl | hyt
      · exact h2 _ _ hrb
      · exact hl.1 y hyt

/-- Insertion sort produces a list that is `Pairwise R` under the same
conditions as `pairwise_orderedInsert_of`. -/
theorem pairwise_insertionSort_of {α : Type} (r : α → α → Prop) [DecidableRel r]
    (R : α → α → Prop)
    (h1 : ∀ a b, r a b → R a b) (h2 : ∀ a b, ¬ r a b → R b a)
    (ht : ∀ a b c, R a b → R b c → R a c) :
    ∀ l : List α, (List.insertionSort r l).Pairwise R := by
  intro l
  induction l with
  | nil => simp
  | cons a t ih =>
    rw [List.insertionSort]
    exact pairwise_orderedInsert_of r R h1 h2 ht a _ ih

/-- A pairwise relation that ignores indices lifts through `List.enum`. -/
theorem pairwise_enum_of_pairwise {α : Type} {R : α → α → Prop} {l : List α}
    (h : l.Pairwise R) : l.enum.Pairwise (fun x y => R x.2 y.2) := by
  rw [List.pairwise_iff_getElem] at h ⊢
  intro i j hi hj hij
  have hi' : i < l.length := by simpa using hi
  have hj' : j < l.length := by simpa using hj
  rw [List.getElem_enum, List.getElem_enum]
  exact h i j hi' hj' hij

/-! ### Confidence Scorer

Modelled from the spec: the rules-based Confidence Scorer
(`calculate_confidence_score` in the backend, which is not under `src/`)
maps a raw pick plus fundamentals to a 0-100 score by summing weighted
factor contributions and clamping to [0, 100] (spec §4.2). -/

/-- The factor weight mapping over the recognized factor set
{industry, dividends, reit, severity_of_loss, ranking, volume} (spec §4.2). -/
structure Weights where
  industry : ℚ
  dividends : ℚ
  reit : ℚ
  severity_of_loss : ℚ
  ranking : ℚ
  volume : ℚ
deriving DecidableEq

/-- A raw pick produced by the Loser Detector: ticker, daily loss percentage
(in percent, e.g. -8 for an 8% loss), 1-based ranking, day's share volume. -/
structure RawPick where
  ticker : String
  daily_loss_pct : ℚ
  ranking : ℕ
  volume : ℕ
deriving DecidableEq

/-- Fundamental attributes from the data provider; `none` means the provider
returned no data, which degrades the factor's indicator to false (spec §4.2). -/
structure Fundamentals where
  industry : Option String
  dividendYield : Option ℚ
  isReit : Option Bool
deriving DecidableEq

/-- Industry factor indicator: 1 when the sector is technology or healthcare. -/
def industryInd (f : Fundamentals) : ℚ :=
  match f.industry with
  | some s => if s = "technology" ∨ s = "healthcare" then 1 else 0
  | none => 0

/-- Dividend factor indicator: 1 when trailing dividend yield < 1% (incl. 0). -/
def dividendsInd (f : Fundamentals) : ℚ :=
  match f.dividendYield with
  | some y => if y < 1 then 1 else 0
  | none => 0

/-- REIT factor indicator: 1 when the company is not classified as a REIT. -/
def reitInd (f : Fundamentals) : ℚ :=
  match f.isReit with
  | some b => if b then 0 else 1
  | none => 0

/-- Severity factor indicator: 1 when |daily_loss_pct| > 5 (percent). -/
def severityInd (p : RawPick) : ℚ := if 5 < |p.daily_loss_pct| then 1 else 0

/-- Ranking factor scale: rank 1 maps to 1.0 and rank N = 5 to 0.0, linear in
between: (N - rank)/(N - 1) (spec §4.2). -/
def rankingInd (p : RawPick) : ℚ := ((5 : ℚ) - (p.ranking : ℚ)) / 4

/-- Volume factor indicator: 1 when the day's volume exceeds 30,000,000. -/
def volumeInd (p : RawPick) : ℚ := if 30000000 < p.volume then 1 else 0

/-- Total confidence score: sum of weight × indicator over the six factors,
clamped to [0, 100] (spec §4.2). -/
def confidenceScore (w : Weights) (p : RawPick) (f : Fundamentals) : ℚ :=
  max 0 (min 100
    (w.industry * industryInd f + w.dividends * dividendsInd f
      + w.reit * reitInd f + w.severity_of_loss * severityInd p
      + w.ranking * rankingInd p + w.volume * volumeInd p))

/-- The fixed baseline weight set, translated from `DEFAULT_WEIGHTS` in
`src/frontend/src/api/client.js` / `src/frontend/src/pages/Analysis.jsx`:
{industry: 15, dividends: 15, reit: 10, severity_of_loss: 30, ranking: 10,
volume: 20}. -/
def DEFAULT_WEIGHTS : Weights :=
  { industry := 15, dividends := 15, reit := 10
    severity_of_loss := 30, ranking := 10, volume := 20 }

/-! ### Loser Detector

Modelled from the spec: the backend's `get_biggest_losers` is not under
`src/`.  Spec §4.1: compute `pct_change = (close - prev_close) / prev_close`
per ticker, drop excluded tickers and tickers without a valid previous close,
sort ascending by `pct_change` with ties broken by ticker symbol ascending,
take the first N = 5, and assign 1-based rankings.  `pct_change` is stored in
percent units to match `daily_loss_pct`. -/

/-- One ticker's price data for a trading day: close, and the prior trading
day's close when available. -/
structure DayRow where
  ticker : String
  close : ℚ
  prevClose : Option ℚ
deriving DecidableEq

/-- An eligible ticker with its computed daily percentage change. -/
structure EligRow where
  ticker : String
  pct_change : ℚ
deriving DecidableEq

/-- Eligibility and percentage change: tickers in the exclusion set or lacking
a valid (present, nonzero) previous close are dropped (spec §4.1). -/
def eligibleRows (excl : List String) (rows : List DayRow) : List EligRow :=
  rows.filterMap (fun r =>
    if r.ticker ∈ excl then none
    else
      match r.prevClose with
      | none => none
      | some pc => if pc = 0 then none else some ⟨r.ticker, (r.close - pc) / pc * 100⟩)

/-- The detector's sort order: ascending percentage change, ties broken by
ticker symbol ascending. -/
def loserLt (a b : EligRow) : Prop :=
  a.pct_change < b.pct_change ∨ (a.pct_change = b.pct_change ∧ jsStrLe a.ticker b.ticker = true)

instance : DecidableRel loserLt := fun a b => by
  unfold loserLt; infer_instance

/-- A ranked pick as emitted by the Loser Detector (the ordering-relevant
fields of a RawPick). -/
structure RankedPick where
  ticker : String
  daily_loss_pct : ℚ
  ranking : ℕ
deriving DecidableEq

/-- The Loser Detector: sort the eligible cross-section ascending by
percentage change (ties by ticker), take the first 5, assign `ranking` =
1-based position (spec §4.1). -/
def detectLosers (excl : List String) (rows : List DayRow) : List RankedPick :=
  ((List.insertionSort loserLt (eligibleRows excl rows)).take 5).enum.map
    (fun e => ⟨e.2.ticker, e.2.pct_change, e.1 + 1⟩)

/-- The spec's six-ticker scenario day, in scrambled input order: A closed 8%
down, B 6%, C 5%, D 4%, E 3%, F 2%, each from a previous close of 100. -/
def scenarioRows : List DayRow :=
  [⟨"F", 98, some 100⟩, ⟨"D", 96, some 100⟩, ⟨"A", 92, some 100⟩,
   ⟨"E", 97, some 100⟩, ⟨"C", 95, some 100⟩, ⟨"B", 94, some 100⟩]

/-! ### Forward Return Calculator

Modelled from the spec: the backend's `calculate_return` is not under `src/`.
Spec §4.3: the horizon return is
`(price_at(purchase_date + N years) - price_at(purchase_date)) /
price_at(purchase_date) × 100`; if no price bar exists at or within a small
tolerance window after the target future date the return is `null` (`none`),
never zero and never an error; null values are excluded from downstream
averages and correlations.  Dates are modelled as day numbers. -/

/-- A closing price bar for one trading day. -/
structure Bar where
  date : ℕ
  close : ℚ
deriving DecidableEq

/-- The first price bar at or after `target` and within the tolerance window
`[target, target + tol]`, if any (the bar list is scanned in calendar order). -/
def findBarAtOrAfter (tol target : ℕ) (bars : List Bar) : Option Bar :=
  bars.find? (fun b => decide (target ≤ b.date ∧ b.date ≤ target + tol))

/-- Forward holding-period return for a pick purchased at price
`purchasePrice` on day `purchaseDate`, held `yrs` years (365-day years):
`none` exactly when no bar resolves in the tolerance window. -/
def forwardReturn (tol : ℕ) (purchasePrice : ℚ) (purchaseDate yrs : ℕ)
    (bars : List Bar) : Option ℚ :=
  match findBarAtOrAfter tol (purchaseDate + yrs * 365) bars with
  | none => none
  | some b => some ((b.close - purchasePrice) / purchasePrice * 100)

/-- The non-null returns of a horizon, the sample every downstream average
uses (spec §4.4). -/
def nonNullReturns (rs : List (Option ℚ)) : List ℚ := rs.filterMap id

/-- Arithmetic mean of the non-null returns (spec §4.4 `avg_return`). -/
def avgReturn (rs : List (Option ℚ)) : ℚ :=
  (nonNullReturns rs).sum / ((nonNullReturns rs).length : ℚ)

/-- The (indicator, return) observations entering a factor correlation: pairs
whose return is null are dropped (spec §4.4). -/
def corrSample (ps : List (ℚ × Option ℚ)) : List (ℚ × ℚ) :=
  ps.filterMap (fun p =>
    match p.2 with
    | none => none
    | some r => some (p.1, r))

/-! ### Run Aggregator: win rate

Modelled from the spec: the backend's `analyze_results` is not under `src/`.
Spec §4.4: `win_rate` is the percentage of non-null returns that are > 0,
recomputed deterministically from the pick set.  The aggregator is modelled
as a single pass accumulating the win and non-null counts. -/

/-- Win rate of a horizon's returns: one fold over the pick set counting
positive returns and non-null returns, then `wins / total × 100`. -/
def winRate (rs : List (Option ℚ)) : ℚ :=
  let acc := rs.foldl
    (fun (a : ℕ × ℕ) r =>
      match r with
      | none => a
      | some v => (a.1 + (if 0 < v then 1 else 0), a.2 + 1))
    (0, 0)
  (acc.1 : ℚ) / (acc.2 : ℚ) * 100

/-! ### Suggested weights

Modelled from the spec: spec §4.4 derives suggested factor weights by
normalizing each factor's |correlation| across all factors so they sum to
100; a factor with no computable correlation (`none`) receives weight 0.
(In ℚ, division by a zero total yields 0, matching the all-zero fallback.) -/

/-- Magnitude of a factor's correlation; a factor without a computable
correlation contributes 0. -/
def absCorr : Option ℚ → ℚ
  | none => 0
  | some c => |c|

/-- The normalization denominator: total |correlation| over all factors. -/
def totalAbsCorr (cs : List (Option ℚ)) : ℚ := (cs.map absCorr).sum

/-- Suggested weights: each factor's |correlation| scaled by 100 / total. -/
def suggestedWeights (cs : List (Option ℚ)) : List ℚ :=
  cs.map (fun c => absCorr c / totalAbsCorr cs * 100)

/-! ### Scoring Model Registry: the save guard

Translated from `saveModel` in the Models page
(`src/frontend/src/api/client.js` bundle, lines 130-150): a create request is
rejected before any API call when `newModelName.trim()` is falsy, i.e. when
the name trims to the empty string. -/

/-- JS `String.prototype.trim`: strip leading and trailing whitespace,
modelled structurally on the character data. -/
def jsTrim (s : String) : String :=
  String.mk (((s.data.dropWhile Char.isWhitespace).reverse.dropWhile Char.isWhitespace).reverse)

/-- The payload `models.create` would be called with. -/
structure ModelCreateReq where
  name : String
  weights : Weights
  threshold : ℚ
deriving DecidableEq

/-- `saveModel`: returns `none` (request rejected, no record created) when the
name trims to empty, otherwise the create payload. -/
def saveModel (name : String) (w : Weights) (threshold : ℚ) : Option ModelCreateReq :=
  if jsTrim name = "" then none else some ⟨name, w, threshold⟩

/-! ### Backtest run lifecycle and cooperative cancellation

Modelled from the spec: the Job Orchestrator is not under `src/`.  Spec §5:
a run's background task iterates trading days while `status = running`,
checks a cancellation flag between days and exits without marking the run
completed; deleting a running run first sets that flag. -/

/-- Run status (spec §3 BacktestRun). -/
inductive RStatus where
  | queued
  | running
  | completed
  | failed
deriving DecidableEq

/-- The mutable per-run state: stored status, the cooperative cancellation
flag, and day progress. -/
structure RunState where
  status : RStatus
  cancelRequested : Bool
  daysDone : ℕ
  totalDays : ℕ
deriving DecidableEq

/-- One transition of the run system: the background task processes a day or
completes (only with the cancellation flag clear), or observes the flag and
exits without completing, or a delete request sets the flag. -/
inductive RunStep : RunState → RunState → Prop where
  | processDay (s : RunState) : s.status = RStatus.running → s.cancelRequested = false →
      s.daysDone < s.totalDays → RunStep s { s with daysDone := s.daysDone + 1 }
  | complete (s : RunState) : s.status = RStatus.running → s.cancelRequested = false →
      s.totalDays ≤ s.daysDone → RunStep s { s with status := RStatus.completed }
  | cancelExit (s : RunState) : s.status = RStatus.running → s.cancelRequested = true →
      RunStep s { s with status := RStatus.failed }
  | requestDelete (s : RunState) : s.status = RStatus.running →
      RunStep s { s with cancelRequested := true }

/-- Reachability in the run transition system. -/
def ReachableRun : RunState → RunState → Prop := Relation.ReflTransGen RunStep

/-! ### Hold-period toggles

Translated from `toggleHoldYear` in `src/frontend/src/pages/Training.jsx`
(lines 85-93) and `src/frontend/src/pages/Analysis.jsx` (lines 103-111): a
selected year is removed only when more than one year is selected; an
unselected year is appended and the list re-sorted with JS's default
`Array.prototype.sort`, which compares elements as strings. -/

/-- JS default sort on an array of numbers: lexicographic comparison of their
decimal string forms. -/
def jsDefaultSort (l : List ℕ) : List ℕ :=
  List.insertionSort (fun a b => jsStrLe (toString a) (toString b) = true) l

instance : DecidableRel (fun a b : ℕ => jsStrLe (toString a) (toString b) = true) :=
  fun _ _ => by infer_instance

/-- `toggleHoldYear` from the Training and Analysis pages. -/
def toggleHoldYear (l : List ℕ) (y : ℕ) : List ℕ :=
  if y ∈ l then
    if 1 < l.length then l.filter (fun x => x ≠ y) else l
  else jsDefaultSort (l ++ [y])

/-! ### Results-table sort comparator

Translated from `sortedPicks` in
`src/frontend/src/components/ResultsTable.jsx` (lines 31-40): the comparator
returns 1 when the first value is null and -1 when the second is, before the
ascending/descending sign is applied to the non-null comparison. -/

/-- The sort comparator of `ResultsTable.sortedPicks`: null checks first, then
the three-way comparison, negated when the direction is descending. -/
def jsCompare {β : Type} [LinearOrder β] (asc : Bool) (a b : Option β) : Int :=
  match a with
  | none => 1
  | some av =>
    match b with
    | none => -1
    | some bv =>
      let c : Int := if av < bv then -1 else if bv < av then 1 else 0
      if asc then c else -c

/-- The sort predicate induced by the comparator: `a` may precede `b` when the
comparator is non-positive. -/
def jsCmpLe {α β : Type} [LinearOrder β] (f : α → Option β) (asc : Bool) (a b : α) : Prop :=
  jsCompare asc (f a) (f b) ≤ 0

instance {α β : Type} [LinearOrder β] (f : α → Option β) (asc : Bool) :
    DecidableRel (jsCmpLe f asc) := fun a b => by
  unfold jsCmpLe; infer_instance

/-- `sortedPicks`: the filtered picks sorted with the comparator, for the sort
field read by `f` and direction `asc`. -/
def sortedPicks {α β : Type} [LinearOrder β] (f : α → Option β) (asc : Bool)
    (l : List α) : List α :=
  List.insertionSort (jsCmpLe f asc) l

/-! ## Theorems -/

/-! ### Helper lemmas for the Confidence Scorer -/

theorem industryInd_nonneg (f : Fundamentals) : 0 ≤ industryInd f := by
  unfold industryInd
  split
  · split <;> norm_num
  · norm_num

theorem dividendsInd_nonneg (f : Fundamentals) : 0 ≤ dividendsInd f := by
  unfold dividendsInd
  split
  · split <;> norm_num
  · norm_num

theorem reitInd_nonneg (f : Fundamentals) : 0 ≤ reitInd f := by
  unfold reitInd
  split
  · split <;> norm_num
  · norm_num

theorem severityInd_nonneg (p : RawPick) : 0 ≤ severityInd p := by
  unfold severityInd; split <;> norm_num

theorem rankingInd_nonneg (p : RawPick) (h : p.ranking ≤ 5) : 0 ≤ rankingInd p := by
  unfold rankingInd
  apply div_nonneg _ (by norm_num)
  rw [sub_nonneg]
  exact_mod_cast h

theorem volumeInd_nonneg (p : RawPick) : 0 ≤ volumeInd p := by
  unfold volumeInd; split <;> norm_num

theorem clampMono {a b : ℚ} (h : a ≤ b) :
    max 0 (min 100 a) ≤ max 0 (min 100 b) :=
  max_le_max le_rfl (min_le_min le_rfl h)

/-- C1: the confidence score always lies in [0,100], and with the pick,
fundamentals and all other weights held fixed, increasing any single factor's
weight (by any `d ≥ 0`) never decreases the score.  The bound
`p.ranking ≤ 5` is the RawPick data-model invariant `ranking ∈ 1..N`
(spec §3), which the ranking-factor monotonicity depends on. -/
theorem C1_confidence_range_and_monotone (w : Weights) (p : RawPick)
    (f : Fundamentals) (d : ℚ) (hd : 0 ≤ d) (hrank : p.ranking ≤ 5) :
    (0 ≤ confidenceScore w p f ∧ confidenceScore w p f ≤ 100)
    ∧ confidenceScore w p f ≤ confidenceScore { w with industry := w.industry + d } p f
    ∧ confidenceScore w p f ≤ confidenceScore { w with dividends := w.dividends + d } p f
    ∧ confidenceScore w p f ≤ confidenceScore { w with reit := w.reit + d } p f
    ∧ confidenceScore w p f ≤ confidenceScore { w with severity_of_loss := w.severity_of_loss + d } p f
    ∧ confidenceScore w p f ≤ confidenceScore { w with ranking := w.ranking + d } p f
    ∧ confidenceScore w p f ≤ confidenceScore { w with volume := w.volume + d } p f := by
  refine ⟨⟨le_max_left _ _, max_le (by norm_num) (min_le_left _ _)⟩, ?_, ?_, ?_, ?_, ?_, ?_⟩
  all_goals unfold confidenceScore
  all_goals apply clampMono
  all_goals dsimp only
  · nlinarith [mul_nonneg hd (industryInd_nonneg f)]
  · nlinarith [mul_nonneg hd (dividendsInd_nonneg f)]
  · nlinarith [mul_nonneg hd (reitInd_nonneg f)]
  · nlinarith [mul_nonneg hd (severityInd_nonneg p)]
  · nlinarith [mul_nonneg hd (rankingInd_nonneg p hrank)]
  · nlinarith [mul_nonneg hd (volumeInd_nonneg p)]

/-- Witness for C1 at a concrete weight set, pick (rank 2, within 1..5),
missing fundamentals, and increment d = 1. -/
theorem C1_confidence_witness :
    0 ≤ confidenceScore ⟨10, 10, 10, 10, 10, 10⟩ ⟨"XYZ", -6, 2, 1000⟩ ⟨none, none, none⟩
    ∧ confidenceScore ⟨10, 10, 10, 10, 10, 10⟩ ⟨"XYZ", -6, 2, 1000⟩ ⟨none, none, none⟩ ≤ 100 :=
  (C1_confidence_range_and_monotone ⟨10, 10, 10, 10, 10, 10⟩ ⟨"XYZ", -6, 2, 1000⟩
    ⟨none, none, none⟩ 1 (by norm_num) (by norm_num)).1

/-- C6: `DEFAULT_WEIGHTS` is the fixed baseline
{industry: 15, dividends: 15, reit: 10, severity_of_loss: 30, ranking: 10,
volume: 20}, and under these weights a rank-1 technology pick with an 8%
daily loss, 40M share volume, 0% dividend yield and non-REIT classification
scores exactly 100. -/
theorem C6_default_weights_and_perfect_score :
    DEFAULT_WEIGHTS.industry = 15 ∧ DEFAULT_WEIGHTS.dividends = 15
    ∧ DEFAULT_WEIGHTS.reit = 10 ∧ DEFAULT_WEIGHTS.severity_of_loss = 30
    ∧ DEFAULT_WEIGHTS.ranking = 10 ∧ DEFAULT_WEIGHTS.volume = 20
    ∧ confidenceScore DEFAULT_WEIGHTS ⟨"TECH", -8, 1, 40000000⟩
        ⟨some "technology", some 0, some false⟩ = 100 := by
  refine ⟨rfl, rfl, rfl, rfl, rfl, rfl, ?_⟩
  norm_num [confidenceScore, DEFAULT_WEIGHTS, industryInd, dividendsInd, reitInd,
    severityInd, rankingInd, volumeInd, abs_of_nonpos]

/-! ### Helper lemmas for the Loser Detector -/

theorem loserLt_total (a b : EligRow) : loserLt a b ∨ loserLt b a := by
  unfold loserLt
  rcases lt_trichotomy a.pct_change b.pct_change with h | h | h
  · exact Or.inl (Or.inl h)
  · rcases charListLe_total a.ticker.data b.ticker.data with hs | hs
    · exact Or.inl (Or.inr ⟨h, hs⟩)
    · exact Or.inr (Or.inr ⟨h.symm, hs⟩)
  · exact Or.inr (Or.inl h)

theorem loserLt_trans (a b c : EligRow) (hab : loserLt a b) (hbc : loserLt b c) :
    loserLt a c := by
  unfold loserLt at *
  rcases hab with h1 | ⟨h1, s1⟩
  · rcases hbc with h2 | ⟨h2, _⟩
    · exact Or.inl (lt_trans h1 h2)
    · exact Or.inl (h2 ▸ h1)
  · rcases hbc with h2 | ⟨h2, s2⟩
    · exact Or.inl (h1 ▸ h2)
    · exact Or.inr ⟨h1.trans h2, charListLe_trans _ _ _ s1 s2⟩

/-- C2: for every trading day (any exclusion set and cross-section), the
Loser Detector returns exactly min(5, #eligible) ranked picks — so it never
errors when fewer than 5 eligible tickers exist — with `ranking` equal to the
1-based position, `daily_loss_pct` non-decreasing in ranking with ties broken
by ticker symbol ascending; and on the six-ticker scenario day
A(-8%), B(-6%), C(-5%), D(-4%), E(-3%), F(-2%) it returns ranks 1..5 =
A, B, C, D, E and excludes F. -/
theorem C2_loser_detector :
    (∀ (excl : List String) (rows : List DayRow),
      (detectLosers excl rows).length = min 5 (eligibleRows excl rows).length
      ∧ (∀ i (hi : i < (detectLosers excl rows).length),
          ((detectLosers excl rows).get ⟨i, hi⟩).ranking = i + 1)
      ∧ (detectLosers excl rows).Pairwise (fun a b =>
          a.daily_loss_pct < b.daily_loss_pct
          ∨ (a.daily_loss_pct = b.daily_loss_pct ∧ jsStrLe a.ticker b.ticker = true)))
    ∧ detectLosers [] scenarioRows =
        [⟨"A", -8, 1⟩, ⟨"B", -6, 2⟩, ⟨"C", -5, 3⟩, ⟨"D", -4, 4⟩, ⟨"E", -3, 5⟩] := by
  constructor
  · intro excl rows
    refine ⟨?_, ?_, ?_⟩
    · simp [detectLosers, List.enum_length, List.length_take,
        (List.perm_insertionSort loserLt (eligibleRows excl rows)).length_eq]
    · intro i hi
      simp only [detectLosers, List.get_eq_getElem, List.getElem_map, List.getElem_enum]
    · have hs : (List.insertionSort loserLt (eligibleRows excl rows)).Pairwise loserLt :=
        pairwise_insertionSort_of loserLt loserLt (fun _ _ h => h)
          (fun a b h => (loserLt_total a b).resolve_left h) loserLt_trans _
      have ht : ((List.insertionSort loserLt (eligibleRows excl rows)).take 5).Pairwise loserLt :=
        List.Pairwise.sublist (List.take_sublist 5 _) hs
      have he := pairwise_enum_of_pairwise ht
      unfold detectLosers
      rw [List.pairwise_map]
      exact he.imp (fun h => h)
  · norm_num [detectLosers, eligibleRows, scenarioRows, List.insertionSort,
      List.orderedInsert, loserLt, jsStrLe, charListLe, List.filterMap]
    rfl

/-- C3: a horizon's forward return is `none` (null, not zero, not an error)
exactly when no price bar exists at or within the tolerance window after the
target future date, and otherwise equals
`(price_at(target) - price_at(purchase)) / price_at(purchase) × 100`; null
values contribute nothing to the downstream average or correlation sample of
that horizon. -/
theorem C3_forward_return_null_policy :
    (∀ (tol : ℕ) (p0 : ℚ) (pd yrs : ℕ) (bars : List Bar),
      (forwardReturn tol p0 pd yrs bars = none
        ↔ findBarAtOrAfter tol (pd + yrs * 365) bars = none)
      ∧ ∀ b, findBarAtOrAfter tol (pd + yrs * 365) bars = some b →
          forwardReturn tol p0 pd yrs bars = some ((b.close - p0) / p0 * 100))
    ∧ (∀ rs : List (Option ℚ), avgReturn (none :: rs) = avgReturn rs)
    ∧ (∀ (x : ℚ) (ps : List (ℚ × Option ℚ)),
        corrSample ((x, none) :: ps) = corrSample ps) := by
  refine ⟨?_, ?_, ?_⟩
  · intro tol p0 pd yrs bars
    constructor
    · unfold forwardReturn
      cases h : findBarAtOrAfter tol (pd + yrs * 365) bars <;> simp
    · intro b hb
      unfold forwardReturn
      rw [hb]
  · intro rs
    simp [avgReturn, nonNullReturns]
  · intro x ps
    simp [corrSample]

/-- Witness for C3: with a single bar 730 days out, the 2-year horizon
resolves to exactly the closed-form value and the 5-year horizon is null. -/
theorem C3_forward_return_witness :
    forwardReturn 5 100 0 2 [⟨730, 150⟩] = some 50
    ∧ forwardReturn 5 100 0 5 [⟨730, 150⟩] = none := by
  constructor
  · have hb : findBarAtOrAfter 5 (0 + 2 * 365) [⟨730, 150⟩] = some ⟨730, 150⟩ := rfl
    rw [(C3_forward_return_null_policy.1 5 100 0 2 [⟨730, 150⟩]).2 ⟨730, 150⟩ hb]
    norm_num
  · exact (C3_forward_return_null_policy.1 5 100 0 5 [⟨730, 150⟩]).1.mpr rfl

/-! ### Helper lemma for the win rate -/

theorem winRate_fold_eq (rs : List (Option ℚ)) : ∀ a b : ℕ,
    rs.foldl
      (fun (acc : ℕ × ℕ) r =>
        match r with
        | none => acc
        | some v => (acc.1 + (if 0 < v then 1 else 0), acc.2 + 1))
      (a, b)
    = (a + (nonNullReturns rs).countP (fun v => decide (0 < v)),
       b + (nonNullReturns rs).length) := by
  induction rs with
  | nil => intro a b; simp [nonNullReturns]
  | cons r t ih =>
    intro a b
    cases r with
    | none =>
      simp only [List.foldl_cons]
      rw [ih]
      simp [nonNullReturns]
    | some v =>
      simp only [List.foldl_cons]
      rw [ih]
      by_cases hv : 0 < v <;>
        simp [nonNullReturns, hv, List.countP_cons, List.length_cons] <;> omega

/-- C4: the Run Aggregator's win rate equals
`count(returns > 0) / count(non-null returns) × 100`, and recomputing it from
the same pick set — in any order — yields the same value. -/
theorem C4_win_rate (rs : List (Option ℚ)) :
    winRate rs = ((nonNullReturns rs).countP (fun v => decide (0 < v)) : ℚ)
        / ((nonNullReturns rs).length : ℚ) * 100
    ∧ ∀ rs', rs.Perm rs' → winRate rs = winRate rs' := by
  constructor
  · unfold winRate
    rw [winRate_fold_eq rs 0 0]
    simp
  · intro rs' hp
    unfold winRate
    rw [winRate_fold_eq rs 0 0, winRate_fold_eq rs' 0 0]
    have hperm : (nonNullReturns rs).Perm (nonNullReturns rs') := hp.filterMap id
    rw [hperm.countP_eq, hperm.length_eq]

/-- Witness for C4: the win rate of a concrete pick set is unchanged under a
permutation of the picks. -/
theorem C4_win_rate_witness :
    winRate [some 1, none, some (-2)] = winRate [none, some 1, some (-2)] :=
  (C4_win_rate [some 1, none, some (-2)]).2 [none, some 1, some (-2)]
    (List.Perm.swap none (some 1) [some (-2)])

/-- C5 counterexample: a factor set with a computable correlation that is
exactly 0 has suggested weights summing to 0, not 100, refuting the claim
that the weights sum to 100 whenever at least one factor has a computable
correlation. -/
theorem C5_counterexample :
    (([some 0, none] : List (Option ℚ)).any fun c => c.isSome) = true
    ∧ (suggestedWeights [some 0, none]).sum ≠ 100 := by
  constructor
  · rfl
  · norm_num [suggestedWeights, totalAbsCorr, absCorr]

/-- C5 (amended): the suggested weights are each factor's |correlation|
normalized by the total |correlation|, so they sum to 100 whenever that total
is positive (some factor has a nonzero computable correlation), sum to 0
whenever the total is 0 (no computable correlation, or all computable
correlations are 0), give weight 0 to every factor with no computable
correlation, and preserve the factors' relative magnitudes. -/
theorem C5_suggested_weights_amended (cs : List (Option ℚ)) :
    (0 < totalAbsCorr cs → (suggestedWeights cs).sum = 100)
    ∧ (totalAbsCorr cs = 0 → (suggestedWeights cs).sum = 0)
    ∧ (∀ i, cs.getD i none = none → (suggestedWeights cs).getD i 0 = 0)
    ∧ (∀ i j, (suggestedWeights cs).getD i 0 * absCorr (cs.getD j none)
        = (suggestedWeights cs).getD j 0 * absCorr (cs.getD i none)) := by
  refine ⟨?_, ?_, ?_, ?_⟩
  · intro ht
    have h1 : (suggestedWeights cs).sum = (cs.map absCorr).sum * (100 / totalAbsCorr cs) := by
      rw [suggestedWeights,
        show (fun c => absCorr c / totalAbsCorr cs * 100)
          = fun c => absCorr c * (100 / totalAbsCorr cs) from funext fun c => by ring]
      exact List.sum_map_mul_right _ _ _
    rw [h1]
    have h0 : totalAbsCorr cs ≠ 0 := ne_of_gt ht
    rw [show (cs.map absCorr).sum = totalAbsCorr cs from rfl]
    field_simp
  · intro h0
    apply List.sum_eq_zero
    intro x hx
    rcases List.mem_map.mp hx with ⟨c, _, rfl⟩
    rw [h0]
    simp
  · intro i hi
    rw [List.getD_eq_getElem?_getD, suggestedWeights, List.getElem?_map]
    rw [List.getD_eq_getElem?_getD] at hi
    cases h : cs[i]? with
    | none => simp
    | some c =>
      rw [h] at hi
      simp only [Option.getD_some] at hi
      simp [h, hi, absCorr]
  · intro i j
    rw [List.getD_eq_getElem?_getD, List.getD_eq_getElem?_getD,
      List.getD_eq_getElem?_getD, List.getD_eq_getElem?_getD,
      suggestedWeights, List.getElem?_map, List.getElem?_map]
    cases hi : cs[i]? with
    | none => cases hj : cs[j]? <;> simp [absCorr]
    | some ci =>
      cases hj : cs[j]? with
      | none => simp [absCorr]
      | some cj =>
        simp only [Option.map_some', Option.getD_some]
        ring

/-- Witness for C5 (amended) at a concrete factor set with total
|correlation| 3/4 > 0: weights sum to 100 and the `none` factor gets 0. -/
theorem C5_suggested_weights_witness :
    (suggestedWeights [some (1/2), none, some (-1/4)]).sum = 100
    ∧ (suggestedWeights [some (1/2), none, some (-1/4)]).getD 1 0 = 0 :=
  ⟨(C5_suggested_weights_amended [some (1/2), none, some (-1/4)]).1
      (by norm_num [totalAbsCorr, absCorr, abs_of_pos]),
   (C5_suggested_weights_amended [some (1/2), none, some (-1/4)]).2.2.1 1 rfl⟩

/-- C7 counterexample: the save guard rejects the whitespace-only name `" "`
even though it is non-empty, refuting the claim that a create with a
non-empty name is never rejected on the name check. -/
theorem C7_counterexample :
    saveModel " " DEFAULT_WEIGHTS 65 = none ∧ (" " : String) ≠ "" := by
  constructor
  · rfl
  · decide

/-- C7 (amended): a create request is rejected (no record created) exactly
when the name trims to the empty string — so the empty name is always
rejected, and any name that does not trim to empty is saved as given. -/
theorem C7_save_model_amended (name : String) (w : Weights) (t : ℚ) :
    saveModel "" w t = none
    ∧ (saveModel name w t = none ↔ jsTrim name = "")
    ∧ (jsTrim name ≠ "" → saveModel name w t = some ⟨name, w, t⟩) := by
  refine ⟨rfl, ?_, ?_⟩
  · unfold saveModel
    by_cases h : jsTrim name = "" <;> simp [h]
  · intro h
    unfold saveModel
    rw [if_neg h]

/-- Witness for C7 (amended): a concrete non-blank name is saved. -/
theorem C7_save_model_witness :
    saveModel "m" DEFAULT_WEIGHTS 65 = some ⟨"m", DEFAULT_WEIGHTS, 65⟩ :=
  (C7_save_model_amended "m" DEFAULT_WEIGHTS 65).2.2 (by decide)

/-- Witness for C2: the detector's length law evaluated on the scenario day. -/
theorem C2_loser_detector_witness :
    (detectLosers [] scenarioRows).length = min 5 (eligibleRows [] scenarioRows).length :=
  (C2_loser_detector.1 [] scenarioRows).1

/-- C8: once a delete request has set the cancellation flag of a running run,
no reachable state of the run system ever stores status `completed`: the
background task can only keep processing with the flag clear, and with the
flag set it exits without completing. -/
theorem C8_cancelled_run_never_completed (s0 s : RunState)
    (hrun : s0.status = RStatus.running) (hcancel : s0.cancelRequested = true)
    (hreach : ReachableRun s0 s) : s.status ≠ RStatus.completed := by
  have key : s.cancelRequested = true ∧ s.status ≠ RStatus.completed := by
    induction hreach with
    | refl =>
      refine ⟨hcancel, ?_⟩
      intro h
      rw [hrun] at h
      exact RStatus.noConfusion h
    | tail hab hbc ih =>
      rcases ih with ⟨ihc, ihs⟩
      cases hbc with
      | processDay h1 h2 h3 => exact ⟨ihc, ihs⟩
      | complete h1 h2 h3 =>
        rw [ihc] at h2
        exact Bool.noConfusion h2
      | cancelExit h1 h2 =>
        refine ⟨ihc, ?_⟩
        intro h
        exact RStatus.noConfusion h
      | requestDelete h1 => exact ⟨rfl, ihs⟩
  exact key.2

/-- Witness for C8 at a concrete running, cancel-requested state (reached by
zero further steps). -/
theorem C8_cancelled_run_witness :
    (⟨RStatus.running, true, 0, 1⟩ : RunState).status ≠ RStatus.completed :=
  C8_cancelled_run_never_completed ⟨RStatus.running, true, 0, 1⟩
    ⟨RStatus.running, true, 0, 1⟩ rfl rfl Relation.ReflTransGen.refl

/-! ### Helper lemmas for the hold-period toggles -/

theorem toggleHoldYear_cases (l : List ℕ) (y : ℕ)
    (hl : l = [2] ∨ l = [5] ∨ l = [2, 5]) (hy : y = 2 ∨ y = 5) :
    toggleHoldYear l y = [2] ∨ toggleHoldYear l y = [5] ∨ toggleHoldYear l y = [2, 5] := by
  rcases hl with rfl | rfl | rfl <;> rcases hy with rfl | rfl <;> decide

theorem foldl_toggleHoldYear_cases (ys : List ℕ) : ∀ l : List ℕ,
    (∀ y ∈ ys, y = 2 ∨ y = 5) → (l = [2] ∨ l = [5] ∨ l = [2, 5]) →
    ys.foldl toggleHoldYear l = [2] ∨ ys.foldl toggleHoldYear l = [5]
      ∨ ys.foldl toggleHoldYear l = [2, 5] := by
  induction ys with
  | nil => intro l _ hl; simpa using hl
  | cons y t ih =>
    intro l hys hl
    simp only [List.foldl_cons]
    exact ih _ (fun z hz => hys z (List.mem_cons_of_mem _ hz))
      (toggleHoldYear_cases l y hl (hys y (List.mem_cons_self _ _)))

/-- C9: starting from the initial selection [2, 5], any sequence of
`toggleHoldYear` calls with the years offered by the pages' buttons (2 and 5)
leaves the selected hold periods non-empty and sorted ascending — a selected
year is only removed while another remains. -/
theorem C9_hold_years_invariant (ys : List ℕ) (hys : ∀ y ∈ ys, y = 2 ∨ y = 5) :
    1 ≤ (ys.foldl toggleHoldYear [2, 5]).length
    ∧ (ys.foldl toggleHoldYear [2, 5]).Pairwise (fun a b => a ≤ b) := by
  rcases foldl_toggleHoldYear_cases ys [2, 5] hys (Or.inr (Or.inr rfl)) with h | h | h <;>
    rw [h] <;> exact ⟨by norm_num, by decide⟩

/-- Witness for C9: toggling 5 off and 2 off (the second refused, as 2 is the
last selected year) keeps the invariant. -/
theorem C9_hold_years_witness :
    1 ≤ (([5, 2] : List ℕ).foldl toggleHoldYear [2, 5]).length
    ∧ (([5, 2] : List ℕ).foldl toggleHoldYear [2, 5]).Pairwise (fun a b => a ≤ b) :=
  C9_hold_years_invariant [5, 2] (by decide)

/-- C10: for every sort field and both directions, the results-table sort
places every pick whose field value is null after all picks with a non-null
value — the comparator's null checks return before the direction sign is
applied. -/
theorem C10_nulls_sort_last {α β : Type} [LinearOrder β] (f : α → Option β)
    (asc : Bool) (l : List α) :
    (sortedPicks f asc l).Pairwise (fun a b => f a = none → f b = none) := by
  unfold sortedPicks
  apply pairwise_insertionSort_of (jsCmpLe f asc)
  · intro a b hab ha
    exfalso
    simp [jsCmpLe, jsCompare, ha] at hab
  · intro a b hab hb
    cases hfa : f a with
    | none => rfl
    | some av =>
      exfalso
      apply hab
      simp [jsCmpLe, jsCompare, hfa, hb]
  · intro a b c h1 h2 ha
    exact h2 (h1 ha)

/-- Witness for C10: a concrete descending sort over `Option ℚ` values. -/
theorem C10_nulls_sort_last_witness :
    (sortedPicks (fun x : Option ℚ => x) false [none, some 2, some 1]).Pairwise
      (fun a b => a = none → b = none) :=
  C10_nulls_sort_last (fun x => x) false [none, some 2, some 1]

end BLS
